import Mathlib

/- Verification of the `eks` entity-component system.

Shallow embedding of the `eks` crate (src/lib.rs, src/map.rs) and proofs
about its operations.

Modelling choices, recorded here once:

* A component kind declared by the `component!` macro is identified by its
  `AS_STR` key (the stringified identifier); two distinct declared kinds
  never share a key.  Kinds are modelled as `Key := String`.
* Component values live at the level of the generated tagged union (the
  `Enum` associated type); its payload extraction (`enum_as_val` etc.) is
  type-directed and not relevant to any claim, so values are an abstract
  type `C`, exactly as in `Entity<C>`.
* `Entity.components : HashMap<&'static str, C>` and
  `World.entities : HashMap<Id, Entity<C>>` are modelled as association
  lists holding the map's entries in its internal iteration order.
  `insert` on an existing key replaces the value in place (same bucket
  slot); a new key is appended, which realises one reachable internal
  order of `std::collections::HashMap` (the actual placement depends on
  the randomly seeded hasher, so no particular order is guaranteed by the
  Rust code).
* `Id` wraps a `Uuid` produced by `Uuid::new_v4()`, a random generator.
  The embedding models the UUID value as a `Nat` and passes the
  generator's output to `Entity.new` as an explicit argument `u`: every
  concrete `Nat` stands for a reachable random draw.
* `panic!` is modelled as `Except.error` carrying the formatted message
  (with `file!/line!/column!` source-location context omitted, as it is
  not part of the program state); normal results are `Except.ok`.
  Nothing in the crate catches or retries such an error.
-/

namespace Eks

/-- Key of a declared component kind: its `AS_STR` string. -/
abbrev Key := String

/- Association-list model of `std::collections::HashMap` -/

/-- Model of `HashMap::get`: first entry with the given key, if any. -/
def mapGet {α β : Type} [DecidableEq α] : List (α × β) → α → Option β
  | [], _ => none
  | (k0, v0) :: t, k => if k = k0 then some v0 else mapGet t k

/-- Model of `HashMap::insert`: returns the previous value for the key (if any) and
the updated entry list; an existing key is replaced in place, a new key is
appended. -/
def mapInsert {α β : Type} [DecidableEq α] :
    List (α × β) → α → β → Option β × List (α × β)
  | [], k, v => (none, [(k, v)])
  | (k0, v0) :: t, k, v =>
    if k = k0 then (some v0, (k, v) :: t)
    else
      let r := mapInsert t k v
      (r.1, (k0, v0) :: r.2)

/-- Model of `HashMap::remove`: returns the removed value (if any) and the updated
entry list. -/
def mapRemove {α β : Type} [DecidableEq α] :
    List (α × β) → α → Option β × List (α × β)
  | [], _ => (none, [])
  | (k0, v0) :: t, k =>
    if k = k0 then (some v0, t)
    else
      let r := mapRemove t k
      (r.1, (k0, v0) :: r.2)

/-- Model of `HashMap::values`: the values in internal entry order. -/
def mapValues {α β : Type} (l : List (α × β)) : List β := l.map Prod.snd

/- Model of `Entity` (src/lib.rs lines 217-298) -/

/-- Model of `Entity<C>`: an id (the `Uuid` inside `Id`, modelled as a `Nat`) plus
the component map keyed by `AS_STR`. -/
structure Entity (C : Type) where
  id : Nat
  components : List (Key × C)
deriving DecidableEq

/-- Model of `Entity::new()`: empty component map, id freshly drawn from
`Uuid::new_v4()` whose random output is the explicit argument `u`. -/
def Entity.new (C : Type) (u : Nat) : Entity C := ⟨u, []⟩

/-- Model of `Entity::get::<T>()`: look the kind's key up in the component map.
(The subsequent `enum_as_val` payload extraction stays at the union level
in this model.) -/
def Entity.get {C : Type} (e : Entity C) (k : Key) : Option C :=
  mapGet e.components k

/-- Model of `Entity::get_mut::<T>()`: reads the same storage slot as `get`; the
reference it hands back is modelled as the (entity, key) address, so the
lookup itself coincides with `get`. -/
def Entity.getMut {C : Type} (e : Entity C) (k : Key) : Option C :=
  mapGet e.components k

/-- Model of `Entity::has::<T>()`: defined in the source as `self.get::<T>().is_some()`. -/
def Entity.has {C : Type} (e : Entity C) (k : Key) : Bool :=
  (e.get k).isSome

/-- Model of `Entity::add::<T>(value)`: `HashMap::insert` under the kind's key;
returns the replaced previous value (if any) and the updated entity. -/
def Entity.add {C : Type} (e : Entity C) (k : Key) (v : C) :
    Option C × Entity C :=
  let r := mapInsert e.components k v
  (r.1, { e with components := r.2 })

/-- Model of `Entity::with::<T>(value)`: builder form, `add` discarding the old value. -/
def Entity.withC {C : Type} (e : Entity C) (k : Key) (v : C) : Entity C :=
  (e.add k v).2

/-- Model of `Entity::remove::<T>()`: `HashMap::remove` under the kind's key;
returns the detached value (if any) and the updated entity. -/
def Entity.remove {C : Type} (e : Entity C) (k : Key) :
    Option C × Entity C :=
  let r := mapRemove e.components k
  (r.1, { e with components := r.2 })

/-- Writing through a mutable reference obtained for kind `k`
(`*ref = v`): stores `v` in that kind's slot, leaving the rest of the map
untouched. -/
def Entity.writeThrough {C : Type} (e : Entity C) (k : Key) (v : C) :
    Entity C :=
  { e with components := (mapInsert e.components k v).2 }

/-- Model of `Index<$id> for Entity` (the `component!` macro): `get` or
`panic!("Unable to find component {:?}", stringify!($id))`. -/
def Entity.index {C : Type} (e : Entity C) (k : Key) : Except String C :=
  match e.get k with
  | some v => Except.ok v
  | none => Except.error ("Unable to find component \"" ++ k ++ "\"")

/- Model of `World` (src/lib.rs lines 333-386) -/

/-- Model of `World<C>`: the entity map keyed by `Id`. -/
structure World (C : Type) where
  entities : List (Nat × Entity C)
deriving DecidableEq

/-- Model of `World::new()`. -/
def World.new (C : Type) : World C := ⟨[]⟩

/-- Model of `World::insert(entity)`: reads the entity's own id, stores the entity
under it, and returns that id. -/
def World.insert {C : Type} (w : World C) (e : Entity C) :
    Nat × World C :=
  let id := e.id
  (id, ⟨(mapInsert w.entities id e).2⟩)

/-- Model of `World::remove(id)`. -/
def World.remove {C : Type} (w : World C) (id : Nat) :
    Option (Entity C) × World C :=
  let r := mapRemove w.entities id
  (r.1, ⟨r.2⟩)

/-- Model of `World::get(id)`. -/
def World.get {C : Type} (w : World C) (id : Nat) : Option (Entity C) :=
  mapGet w.entities id

/-- Model of `World::iter()`: `self.entities.values()`, in the map's internal order. -/
def World.iter {C : Type} (w : World C) : List (Entity C) :=
  mapValues w.entities

/-- Model of `World::iter_mut()`: `self.entities.values_mut()`, same traversal. -/
def World.iterMut {C : Type} (w : World C) : List (Entity C) :=
  mapValues w.entities

/-- Model of `Index<Id> for World`: `get` or
`panic!("Unable to find entity with id: {}", id)`. -/
def World.index {C : Type} (w : World C) (id : Nat) :
    Except String (Entity C) :=
  match w.get id with
  | some e => Except.ok e
  | none => Except.error ("Unable to find entity with id: " ++ toString id)

/-- One mutating operation on a world, for stating history-quantified
invariants. -/
inductive Op (C : Type) where
  | ins (e : Entity C)
  | rem (id : Nat)

/-- Apply one operation. -/
def World.applyOp {C : Type} (w : World C) : Op C → World C
  | Op.ins e => (w.insert e).2
  | Op.rem id => (w.remove id).2

/-- Apply a history of operations, left to right. -/
def World.applyAll {C : Type} (w : World C) (ops : List (Op C)) : World C :=
  ops.foldl World.applyOp w

/-- The sequence of ids returned by a sequence of `insert` calls. -/
def World.insertAll {C : Type} (w : World C) :
    List (Entity C) → List Nat × World C
  | [] => ([], w)
  | e :: es =>
    let r := w.insert e
    let rs := r.2.insertAll es
    (r.1 :: rs.1, rs.2)

/- Query engine (src/map.rs) -/

/-- The `tags!` / has-all closure: `|entity| $($name::try_entity(entity).is_some() &&)* true`. -/
def hasAll {C : Type} (ks : List Key) (e : Entity C) : Bool :=
  ks.all (fun k => (e.get k).isSome)

/-- The `map!` closure (src/map.rs lines 68-80): if every requested kind's
`try_entity` is `some`, the tuple of the unwrapped references, else `None`.
Tuples are modelled as lists (the macro generalises over the arity). -/
def mapQuery {C : Type} (ks : List Key) (e : Entity C) : Option (List C) :=
  if ks.all (fun k => (e.get k).isSome) then
    some (ks.filterMap (fun k => e.get k))
  else
    none

/-- The `map_mut!` closure (src/map.rs lines 113-128): same shape as
`map!` but through `try_entity_mut`, which reaches the same storage slot. -/
def mapMutQuery {C : Type} (ks : List Key) (e : Entity C) : Option (List C) :=
  if ks.all (fun k => (e.getMut k).isSome) then
    some (ks.filterMap (fun k => e.getMut k))
  else
    none

/-- The duplicate scan of `map_mut_checked!`: walks the requested kinds in
order, keeping the set of names already `used`, and reports the first kind
already present (the code panics there). -/
def firstDupAux (seen : List Key) : List Key → Option Key
  | [] => none
  | k :: ks => if k ∈ seen then some k else firstDupAux (k :: seen) ks

/-- The duplicate scan started with an empty `used` set. -/
def firstDup (ks : List Key) : Option Key := firstDupAux [] ks

/-- The panic message of `map_mut_checked!` (`{:?}` of the kind's name
string adds the quotes; `file!/line!/column!` context omitted). -/
def dupMsg (k : Key) : String :=
  "\"" ++ k ++ "\" is used twice in `map_mut_checked`"

/-- The `map_mut_checked!` closure (src/map.rs lines 160-184): per call it
first runs the duplicate scan, panicking with `dupMsg` at the first
repeated kind, and only then extracts references exactly as `map_mut!`. -/
def mapMutChecked {C : Type} (ks : List Key) (e : Entity C) :
    Except String (Option (List C)) :=
  match firstDup ks with
  | some k => Except.error (dupMsg k)
  | none => Except.ok (mapMutQuery ks e)

/-- The `map!`/`map_mut!` iterator form: `world.iter().filter_map(closure)`. -/
def mapQueryWorld {C : Type} (ks : List Key) (w : World C) : List (List C) :=
  w.iter.filterMap (fun e => mapQuery ks e)

/-- The `map_mut_checked!` iterator form, made strict to surface the
panic: the `filter_map` calls the closure once per visited entity, so the
first call's panic aborts the traversal before anything is yielded. -/
def runChecked {C : Type} (ks : List Key) :
    List (Entity C) → Except String (List (List C))
  | [] => Except.ok []
  | e :: es =>
    match mapMutChecked ks e with
    | Except.error msg => Except.error msg
    | Except.ok none => runChecked ks es
    | Except.ok (some vs) =>
      match runChecked ks es with
      | Except.error msg => Except.error msg
      | Except.ok rest => Except.ok (vs :: rest)

/- A concrete component declaration for witnesses

`component! { Position: isize, Speed: isize }` from the crate's own test:
the generated tagged union has one case per kind, and the kinds' keys are
the stringified identifiers. -/

/-- The tagged union generated for `component! { Position: isize, Speed: isize }`. -/
inductive Comp where
  | position (v : Int)
  | speed (v : Int)
deriving DecidableEq

/- Lemmas about the association-list map model. -/

section MapLemmas

variable {α β : Type} [DecidableEq α]

theorem mapInsert_fst (l : List (α × β)) (k : α) (v : β) :
    (mapInsert l k v).1 = mapGet l k := by
  induction l with
  | nil => rfl
  | cons p t ih =>
    obtain ⟨k0, v0⟩ := p
    by_cases h : k = k0
    · simp [mapInsert, mapGet, h]
    · simp [mapInsert, mapGet, h, ih]

theorem mapGet_mapInsert_self (l : List (α × β)) (k : α) (v : β) :
    mapGet (mapInsert l k v).2 k = some v := by
  induction l with
  | nil => simp [mapInsert, mapGet]
  | cons p t ih =>
    obtain ⟨k0, v0⟩ := p
    by_cases h : k = k0
    · simp [mapInsert, mapGet, h]
    · simp [mapInsert, mapGet, h, ih]

theorem mapGet_mapInsert_ne (l : List (α × β)) (k k' : α) (v : β)
    (h : k' ≠ k) : mapGet (mapInsert l k v).2 k' = mapGet l k' := by
  induction l with
  | nil => simp [mapInsert, mapGet, h]
  | cons p t ih =>
    obtain ⟨k0, v0⟩ := p
    by_cases h0 : k = k0
    · subst h0
      simp [mapInsert, mapGet, h]
    · by_cases h1 : k' = k0
      · simp [mapInsert, mapGet, h0, h1]
      · simp [mapInsert, mapGet, h0, h1, ih]

theorem mapRemove_fst (l : List (α × β)) (k : α) :
    (mapRemove l k).1 = mapGet l k := by
  induction l with
  | nil => rfl
  | cons p t ih =>
    obtain ⟨k0, v0⟩ := p
    by_cases h : k = k0
    · simp [mapRemove, mapGet, h]
    · simp [mapRemove, mapGet, h, ih]

theorem mapGet_eq_none_iff (l : List (α × β)) (k : α) :
    mapGet l k = none ↔ k ∉ l.map Prod.fst := by
  induction l with
  | nil => simp [mapGet]
  | cons p t ih =>
    obtain ⟨k0, v0⟩ := p
    by_cases h : k = k0
    · subst h
      simp [mapGet]
    · simp [mapGet, h, ih]

theorem mapGet_isSome_iff (l : List (α × β)) (k : α) :
    (mapGet l k).isSome = true ↔ k ∈ l.map Prod.fst := by
  induction l with
  | nil => simp [mapGet]
  | cons p t ih =>
    obtain ⟨k0, v0⟩ := p
    by_cases h : k = k0
    · subst h
      simp [mapGet]
    · simp [mapGet, h, ih]

theorem mapRemove_of_get_none (l : List (α × β)) (k : α)
    (h : mapGet l k = none) : mapRemove l k = (none, l) := by
  induction l with
  | nil => rfl
  | cons p t ih =>
    obtain ⟨k0, v0⟩ := p
    by_cases h0 : k = k0
    · simp [mapGet, h0] at h
    · simp [mapGet, h0] at h
      simp [mapRemove, h0, ih h]

theorem mapGet_mapRemove_self (l : List (α × β)) (k : α)
    (hnd : (l.map Prod.fst).Nodup) :
    mapGet (mapRemove l k).2 k = none := by
  induction l with
  | nil => rfl
  | cons p t ih =>
    obtain ⟨k0, v0⟩ := p
    simp only [List.map_cons, List.nodup_cons] at hnd
    by_cases h0 : k = k0
    · subst h0
      simp only [mapRemove, if_pos rfl]
      exact (mapGet_eq_none_iff t k).2 hnd.1
    · simp [mapRemove, mapGet, h0, ih hnd.2]

theorem mem_of_mapGet_eq_some (l : List (α × β)) (k : α) (v : β)
    (h : mapGet l k = some v) : (k, v) ∈ l := by
  induction l with
  | nil => simp [mapGet] at h
  | cons p t ih =>
    obtain ⟨k0, v0⟩ := p
    by_cases h0 : k = k0
    · subst h0
      have h2 : v0 = v := by simpa [mapGet] using h
      subst h2
      exact List.mem_cons_self _ _
    · simp only [mapGet, if_neg h0] at h
      exact List.mem_cons_of_mem _ (ih h)

theorem mapGet_eq_some_of_mem (l : List (α × β)) (k : α) (v : β)
    (hnd : (l.map Prod.fst).Nodup) (h : (k, v) ∈ l) :
    mapGet l k = some v := by
  induction l with
  | nil => simp at h
  | cons p t ih =>
    obtain ⟨k0, v0⟩ := p
    simp only [List.map_cons, List.nodup_cons] at hnd
    rcases List.mem_cons.1 h with h1 | h1
    · cases h1
      simp [mapGet]
    · have hk : k ≠ k0 := by
        rintro rfl
        exact hnd.1 (List.mem_map.2 ⟨(k, v), h1, rfl⟩)
      simp [mapGet, hk, ih hnd.2 h1]

theorem mapInsert_keys_of_mem (l : List (α × β)) (k : α) (v : β)
    (h : k ∈ l.map Prod.fst) :
    (mapInsert l k v).2.map Prod.fst = l.map Prod.fst := by
  induction l with
  | nil => simp at h
  | cons p t ih =>
    obtain ⟨k0, v0⟩ := p
    by_cases h0 : k = k0
    · subst h0
      simp [mapInsert]
    · simp only [List.map_cons, List.mem_cons] at h
      rcases h with h | h
      · exact absurd h h0
      · simp [mapInsert, h0, ih h]

theorem mapInsert_keys_of_not_mem (l : List (α × β)) (k : α) (v : β)
    (h : k ∉ l.map Prod.fst) :
    (mapInsert l k v).2.map Prod.fst = l.map Prod.fst ++ [k] := by
  induction l with
  | nil => simp [mapInsert]
  | cons p t ih =>
    obtain ⟨k0, v0⟩ := p
    have h1 : k ≠ k0 := fun hk => h (by simp [hk])
    have h2 : k ∉ t.map Prod.fst := fun hk => h (by simp [hk])
    simp [mapInsert, h1, ih h2]

theorem mapInsert_nodup (l : List (α × β)) (k : α) (v : β)
    (hnd : (l.map Prod.fst).Nodup) :
    ((mapInsert l k v).2.map Prod.fst).Nodup := by
  by_cases h : k ∈ l.map Prod.fst
  · rw [mapInsert_keys_of_mem l k v h]
    exact hnd
  · rw [mapInsert_keys_of_not_mem l k v h]
    simp [List.nodup_append, hnd, h]

theorem mapInsert_length_of_mem (l : List (α × β)) (k : α) (v : β)
    (h : k ∈ l.map Prod.fst) :
    (mapInsert l k v).2.length = l.length := by
  have := congrArg List.length (mapInsert_keys_of_mem l k v h)
  simpa using this

theorem mapInsert_mem (l : List (α × β)) (k : α) (v : β) (p : α × β)
    (h : p ∈ (mapInsert l k v).2) : p ∈ l ∨ p = (k, v) := by
  induction l with
  | nil => simpa [mapInsert] using h
  | cons q t ih =>
    obtain ⟨k0, v0⟩ := q
    by_cases h0 : k = k0
    · subst h0
      have h2 : p ∈ (k, v) :: t := by simpa [mapInsert] using h
      rcases List.mem_cons.1 h2 with h3 | h3
      · right; exact h3
      · left; exact List.mem_cons_of_mem _ h3
    · simp only [mapInsert, if_neg h0, List.mem_cons] at h
      rcases h with h | h
      · left; simp [h]
      · rcases ih h with h1 | h1
        · left; exact List.mem_cons_of_mem _ h1
        · right; exact h1

theorem mapRemove_sublist (l : List (α × β)) (k : α) :
    (mapRemove l k).2.Sublist l := by
  induction l with
  | nil => simp [mapRemove]
  | cons p t ih =>
    obtain ⟨k0, v0⟩ := p
    by_cases h0 : k = k0
    · subst h0
      have he : (mapRemove ((k, v0) :: t) k).2 = t := by simp [mapRemove]
      rw [he]
      exact List.sublist_cons_self _ _
    · simp only [mapRemove, if_neg h0]
      exact ih.cons₂ _

theorem mapRemove_nodup (l : List (α × β)) (k : α)
    (hnd : (l.map Prod.fst).Nodup) :
    ((mapRemove l k).2.map Prod.fst).Nodup :=
  ((mapRemove_sublist l k).map Prod.fst).nodup hnd

omit [DecidableEq α] in
theorem mem_mapValues (l : List (α × β)) (b : β) :
    b ∈ mapValues l ↔ ∃ a, (a, b) ∈ l := by
  simp only [mapValues, List.mem_map]
  constructor
  · rintro ⟨⟨a, b0⟩, hm, rfl⟩
    exact ⟨a, hm⟩
  · rintro ⟨a, hm⟩
    exact ⟨(a, b), hm, rfl⟩

end MapLemmas

/- Lemmas about the duplicate scan of `map_mut_checked!`. -/

theorem firstDupAux_eq_none (seen : List Key) (ks : List Key)
    (h : firstDupAux seen ks = none) : ks.Nodup ∧ ∀ k ∈ ks, k ∉ seen := by
  induction ks generalizing seen with
  | nil => simp
  | cons k t ih =>
    by_cases hk : k ∈ seen
    · simp [firstDupAux, hk] at h
    · simp only [firstDupAux, if_neg hk] at h
      obtain ⟨hnd, hmem⟩ := ih (k :: seen) h
      refine ⟨List.nodup_cons.2 ⟨?_, hnd⟩, ?_⟩
      · intro hkt
        exact (hmem k hkt) (List.mem_cons_self _ _)
      · intro x hx
        rcases List.mem_cons.1 hx with rfl | hx2
        · exact hk
        · intro hxs
          exact (hmem x hx2) (List.mem_cons_of_mem _ hxs)

theorem firstDupAux_eq_some (seen : List Key) (ks : List Key) (d : Key)
    (h : firstDupAux seen ks = some d) :
    d ∈ ks ∧ (d ∈ seen ∨ 2 ≤ ks.count d) := by
  induction ks generalizing seen with
  | nil => simp [firstDupAux] at h
  | cons k t ih =>
    by_cases hk : k ∈ seen
    · simp only [firstDupAux, if_pos hk, Option.some.injEq] at h
      subst h
      exact ⟨List.mem_cons_self _ _, Or.inl hk⟩
    · simp only [firstDupAux, if_neg hk] at h
      obtain ⟨hmem, hcase⟩ := ih (k :: seen) h
      refine ⟨List.mem_cons_of_mem _ hmem, ?_⟩
      rcases hcase with hseen | hcount
      · rcases List.mem_cons.1 hseen with rfl | hs
        · right
          have h1 : 0 < t.count d := List.count_pos_iff.2 hmem
          rw [List.count_cons_self]
          omega
        · left
          exact hs
      · right
        have h2 : t.count d ≤ (k :: t).count d :=
          (List.sublist_cons_self k t).count_le d
        omega

theorem firstDup_eq_some (ks : List Key) (d : Key)
    (h : firstDup ks = some d) : d ∈ ks ∧ 2 ≤ ks.count d := by
  obtain ⟨hm, hc⟩ := firstDupAux_eq_some [] ks d h
  rcases hc with hs | hc
  · simp at hs
  · exact ⟨hm, hc⟩

theorem nodup_of_firstDup_eq_none (ks : List Key)
    (h : firstDup ks = none) : ks.Nodup :=
  (firstDupAux_eq_none [] ks h).1

/- Invariants of worlds reachable from `World::new` by inserts and
removes: entity-map keys are pairwise distinct, and each stored entity's
own id is the key it is stored under. -/

theorem applyOp_inv {C : Type} (w : World C) (op : Op C)
    (h1 : (w.entities.map Prod.fst).Nodup)
    (h2 : ∀ p ∈ w.entities, p.2.id = p.1) :
    ((w.applyOp op).entities.map Prod.fst).Nodup
    ∧ ∀ p ∈ (w.applyOp op).entities, p.2.id = p.1 := by
  cases op with
  | ins e =>
    simp only [World.applyOp, World.insert]
    constructor
    · exact mapInsert_nodup _ _ _ h1
    · intro p hp
      rcases mapInsert_mem _ _ _ _ hp with hm | hm
      · exact h2 p hm
      · rw [hm]
  | rem id =>
    simp only [World.applyOp, World.remove]
    constructor
    · exact mapRemove_nodup _ _ h1
    · intro p hp
      exact h2 p ((mapRemove_sublist _ _).subset hp)

theorem applyAll_inv_gen {C : Type} (ops : List (Op C)) (w : World C)
    (h1 : (w.entities.map Prod.fst).Nodup)
    (h2 : ∀ p ∈ w.entities, p.2.id = p.1) :
    ((w.applyAll ops).entities.map Prod.fst).Nodup
    ∧ ∀ p ∈ (w.applyAll ops).entities, p.2.id = p.1 := by
  induction ops generalizing w with
  | nil => exact ⟨h1, h2⟩
  | cons op t ih =>
    simp only [World.applyAll, List.foldl_cons]
    obtain ⟨g1, g2⟩ := applyOp_inv w op h1 h2
    exact ih _ g1 g2

/- Lemmas about the query closures. -/

theorem map_eq_filterMap_map_some {C : Type} (ks : List Key)
    (f : Key → Option C) (h : ∀ k ∈ ks, (f k).isSome = true) :
    ks.map f = (ks.filterMap f).map some := by
  induction ks with
  | nil => rfl
  | cons k t ih =>
    have hk := h k (List.mem_cons_self _ _)
    obtain ⟨v, hv⟩ := Option.isSome_iff_exists.1 hk
    simp [List.filterMap_cons, hv,
      ih (fun x hx => h x (List.mem_cons_of_mem _ hx))]

theorem mapQuery_eq_some_of_hasAll {C : Type} (ks : List Key)
    (e : Entity C) (h : hasAll ks e = true) :
    mapQuery ks e = some (ks.filterMap (fun k => e.get k)) := by
  unfold mapQuery
  rw [if_pos]
  exact h

theorem mapQuery_eq_none_of_not_hasAll {C : Type} (ks : List Key)
    (e : Entity C) (h : hasAll ks e = false) :
    mapQuery ks e = none := by
  unfold mapQuery
  rw [if_neg]
  simp only [hasAll] at h
  simp [h]

theorem filterMap_mapQuery {C : Type} (ks : List Key)
    (l : List (Entity C)) :
    l.filterMap (fun e => mapQuery ks e)
      = (l.filter (fun e => hasAll ks e)).map
          (fun e => ks.filterMap (fun k => e.get k)) := by
  induction l with
  | nil => rfl
  | cons e t ih =>
    by_cases h : hasAll ks e = true
    · rw [List.filterMap_cons, mapQuery_eq_some_of_hasAll ks e h,
        List.filter_cons_of_pos h, List.map_cons, ih]
    · have hf : hasAll ks e = false := by
        rcases Bool.eq_false_or_eq_true (hasAll ks e) with h1 | h1
        · exact absurd h1 h
        · exact h1
      rw [List.filterMap_cons, mapQuery_eq_none_of_not_hasAll ks e hf,
        List.filter_cons_of_neg (by simp [hf]), ih]

/- The claims. -/

/-- Claim C1: the immutable `map!` closure returns `Some` on an entity iff
the entity has every requested kind, each component of the yielded tuple
is exactly what `e.get(kᵢ)` returns, and composed over a world it yields
exactly (the tuples of) the entities satisfying the has-all predicate. -/
theorem claim_C1 {C : Type} (ks : List Key) (e : Entity C) (w : World C) :
    ((mapQuery ks e).isSome = true ↔ hasAll ks e = true)
    ∧ (∀ vs, mapQuery ks e = some vs →
        ks.map (fun k => e.get k) = vs.map some)
    ∧ mapQueryWorld ks w
        = ((w.iter.filter (fun x => hasAll ks x)).map
            (fun x => ks.filterMap (fun k => x.get k))) := by
  refine ⟨?_, ?_, ?_⟩
  · constructor
    · intro h
      rcases Bool.eq_false_or_eq_true (hasAll ks e) with h1 | h1
      · exact h1
      · rw [mapQuery_eq_none_of_not_hasAll ks e h1] at h
        simp at h
    · intro h
      rw [mapQuery_eq_some_of_hasAll ks e h]
      rfl
  · intro vs hvs
    have hall : hasAll ks e = true := by
      rcases Bool.eq_false_or_eq_true (hasAll ks e) with h1 | h1
      · exact h1
      · rw [mapQuery_eq_none_of_not_hasAll ks e h1] at hvs
        cases hvs
    rw [mapQuery_eq_some_of_hasAll ks e hall] at hvs
    obtain rfl : ks.filterMap (fun k => e.get k) = vs :=
      Option.some_inj.1 hvs
    apply map_eq_filterMap_map_some
    intro k hk
    simp only [hasAll, List.all_eq_true] at hall
    exact hall k hk
  · exact filterMap_mapQuery ks w.iter

/-- Claim C1 witness: the immutable map evaluated on concrete data. -/
theorem claim_C1_witness :
    ((mapQuery ["Position"]
        (⟨1, [("Position", Comp.position 2)]⟩ : Entity Comp)).isSome = true
      ↔ hasAll ["Position"]
          (⟨1, [("Position", Comp.position 2)]⟩ : Entity Comp) = true)
    ∧ (∀ vs, mapQuery ["Position"]
          (⟨1, [("Position", Comp.position 2)]⟩ : Entity Comp) = some vs →
        ["Position"].map
            (fun k =>
              (⟨1, [("Position", Comp.position 2)]⟩ : Entity Comp).get k)
          = vs.map some)
    ∧ mapQueryWorld ["Position"] (World.new Comp)
        = (((World.new Comp).iter.filter
              (fun x => hasAll ["Position"] x)).map
            (fun x => ["Position"].filterMap (fun k => x.get k))) :=
  claim_C1 ["Position"] (⟨1, [("Position", Comp.position 2)]⟩ : Entity Comp)
    (World.new Comp)

/-- Claim C2 counterexample: `Id::new` draws a random `Uuid::new_v4`, so
the draws 5 then 3 are reachable; the identities returned by the two
inserts are then `[5, 3]`, which is not strictly increasing.  The claim
that insert assigns identities from a strictly increasing world counter
is false on the code. -/
theorem claim_C2_counterexample :
    ((World.new Comp).insertAll
        [Entity.new Comp 5, Entity.new Comp 3]).1 = [5, 3]
    ∧ ¬ List.Chain' (fun a b : Nat => a < b)
        (((World.new Comp).insertAll
            [Entity.new Comp 5, Entity.new Comp 3]).1) := by
  constructor
  · rfl
  · have hl : ((World.new Comp).insertAll
        [Entity.new Comp 5, Entity.new Comp 3]).1 = [5, 3] := rfl
    rw [hl]
    intro hch
    obtain ⟨hlt, _⟩ := List.chain'_cons.1 hch
    omega

/-- Claim C2 (amended): `World::insert` mints nothing — the identities
returned by any sequence of inserts are exactly the inserted entities'
own pre-existing ids (drawn at `Entity::new` from `Uuid::new_v4`), with
no monotonicity or freshness guarantee. -/
theorem claim_C2 {C : Type} (w : World C) (es : List (Entity C)) :
    (w.insertAll es).1 = es.map Entity.id := by
  induction es generalizing w with
  | nil => rfl
  | cons e t ih =>
    simp only [World.insertAll, World.insert, List.map_cons]
    rw [ih]

/-- Claim C3 counterexample: a world holding entities whose random ids
were drawn as 5 and then 3 iterates them as `[5, 3]` (the entity map's
internal order), which is not identity-ascending. -/
theorem claim_C3_counterexample :
    ((((World.new Comp).insert (Entity.new Comp 5)).2.insert
        (Entity.new Comp 3)).2.iter.map Entity.id) = [5, 3]
    ∧ ¬ List.Sorted (fun a b : Nat => a < b)
        ((((World.new Comp).insert (Entity.new Comp 5)).2.insert
            (Entity.new Comp 3)).2.iter.map Entity.id) := by
  constructor
  · rfl
  · decide

/-- Claim C3 (amended): for any world reachable from `World::new` by
inserts and removes, `iter` traverses each stored entity exactly once
(their ids are pairwise distinct, and an entity is yielded iff it is
reachable through `get`), but in the entity map's internal order, with no
identity-ascending or cross-run ordering guarantee. -/
theorem claim_C3 {C : Type} (ops : List (Op C)) :
    ((((World.new C).applyAll ops).iter.map Entity.id).Nodup)
    ∧ (∀ e : Entity C, e ∈ ((World.new C).applyAll ops).iter
        ↔ ∃ id, ((World.new C).applyAll ops).get id = some e) := by
  obtain ⟨h1, h2⟩ := applyAll_inv_gen ops (World.new C)
    (by simp [World.new]) (by simp [World.new])
  constructor
  · have he : (((World.new C).applyAll ops).iter.map Entity.id)
        = ((World.new C).applyAll ops).entities.map Prod.fst := by
      simp only [World.iter, mapValues, List.map_map]
      exact List.map_congr_left (fun p hp => h2 p hp)
    rw [he]
    exact h1
  · intro e
    constructor
    · intro hm
      obtain ⟨id, hid⟩ := (mem_mapValues _ _).1 hm
      exact ⟨id, mapGet_eq_some_of_mem _ _ _ h1 hid⟩
    · rintro ⟨id, hid⟩
      exact (mem_mapValues _ _).2 ⟨id, mem_of_mapGet_eq_some _ _ _ hid⟩

/-- Claim C4 counterexample: on an empty world, the `map_mut_checked!`
iterator with a duplicated kind list never invokes the per-entity
closure, so it completes without any fatal failure — refuting the claim
for every world. -/
theorem claim_C4_counterexample :
    runChecked ["Position", "Position"] ([] : List (Entity Comp))
      = Except.ok [] := rfl

/-- Claim C4 (amended): whenever the duplicate scan finds a kind `d`
(which happens exactly when the requested list repeats a kind), `d`
really occurs at least twice, and on any world with at least one entity
the `map_mut_checked!` traversal fails fatally at the first entity
visited with a message naming `d`, before yielding anything; on an empty
world the closure never runs and no failure occurs. -/
theorem claim_C4 {C : Type} (ks : List Key) (d : Key) (e : Entity C)
    (es : List (Entity C)) (h : firstDup ks = some d) :
    (2 ≤ ks.count d)
    ∧ ¬ ks.Nodup
    ∧ runChecked ks (e :: es) = Except.error (dupMsg d) := by
  obtain ⟨hm, hc⟩ := firstDup_eq_some ks d h
  refine ⟨hc, ?_, ?_⟩
  · intro hnd
    have hle := List.nodup_iff_count_le_one.1 hnd d
    omega
  · have hmc : mapMutChecked ks e = Except.error (dupMsg d) := by
      unfold mapMutChecked
      rw [h]
    unfold runChecked
    rw [hmc]

/-- Claim C4 witness: the duplicate failure evaluated on concrete data. -/
theorem claim_C4_witness :
    (2 ≤ List.count "Position" ["Position", "Position"])
    ∧ ¬ List.Nodup ["Position", "Position"]
    ∧ runChecked ["Position", "Position"] [Entity.new Comp 0]
        = Except.error (dupMsg "Position") :=
  claim_C4 ["Position", "Position"] "Position" (Entity.new Comp 0) []
    (by decide)

/-- Claim C5: for two distinct requested kinds the fast `map_mut!`
closure succeeds exactly when the entity has both, and the two slots are
disjoint storage — writing through the reference for `k1` never changes
the value observed through the reference for `k2`. -/
theorem claim_C5 {C : Type} (e : Entity C) (k1 k2 : Key) (v : C)
    (h : k1 ≠ k2) :
    ((mapMutQuery [k1, k2] e).isSome = (e.has k1 && e.has k2))
    ∧ (e.writeThrough k1 v).get k2 = e.get k2 := by
  constructor
  · simp only [mapMutQuery, List.all_cons, List.all_nil, Bool.and_true,
      Entity.has, Entity.getMut, Entity.get]
    split
    · rename_i hc
      simp [hc]
    · rename_i hc
      rw [Bool.not_eq_true] at hc
      simp [hc]
  · simp only [Entity.writeThrough, Entity.get]
    exact mapGet_mapInsert_ne _ _ _ _ (Ne.symm h)

/-- Claim C5 witness: disjointness evaluated on a concrete entity holding
both `Position` and `Speed`. -/
theorem claim_C5_witness :
    ((mapMutQuery ["Position", "Speed"]
        (⟨1, [("Position", Comp.position 2),
              ("Speed", Comp.speed 3)]⟩ : Entity Comp)).isSome
      = ((⟨1, [("Position", Comp.position 2),
              ("Speed", Comp.speed 3)]⟩ : Entity Comp).has "Position"
          && (⟨1, [("Position", Comp.position 2),
              ("Speed", Comp.speed 3)]⟩ : Entity Comp).has "Speed"))
    ∧ ((⟨1, [("Position", Comp.position 2),
          ("Speed", Comp.speed 3)]⟩ : Entity Comp).writeThrough
            "Position" (Comp.position 7)).get "Speed"
        = (⟨1, [("Position", Comp.position 2),
              ("Speed", Comp.speed 3)]⟩ : Entity Comp).get "Speed" :=
  claim_C5 (⟨1, [("Position", Comp.position 2),
      ("Speed", Comp.speed 3)]⟩ : Entity Comp) "Position" "Speed"
    (Comp.position 7) (by decide)

/-- Claim C6: re-adding an existing kind replaces the prior value
(last-write-wins): after `e.add(k, v1); e.add(k, v2)`, `e.get(k)` is
`Some(v2)`; the entity does not retain `v1` — the second `add` detaches
and returns it — so the duplicate add is never a silent no-op. -/
theorem claim_C6 {C : Type} (e : Entity C) (k : Key) (v1 v2 : C) :
    (((e.add k v1).2.add k v2).2.get k = some v2)
    ∧ ((e.add k v1).2.add k v2).1 = some v1 := by
  constructor
  · simp only [Entity.add, Entity.get]
    exact mapGet_mapInsert_self _ _ _
  · simp only [Entity.add]
    rw [mapInsert_fst]
    exact mapGet_mapInsert_self _ _ _

/-- Claim C7: `e.remove(k)` detaches and returns ownership of the stored
value: it returns exactly what `e.get(k)` held (in particular the value
just passed to `add`), returns `None` on an absent kind without any
error (the entity is unchanged), and afterwards `e.has(k)` is false. -/
theorem claim_C7 {C : Type} (e : Entity C) (k : Key) (v : C)
    (h : (e.components.map Prod.fst).Nodup) :
    ((e.remove k).1 = e.get k)
    ∧ ((e.remove k).2.has k = false)
    ∧ (e.get k = none → e.remove k = (none, e))
    ∧ ((e.add k v).2.remove k).1 = some v := by
  refine ⟨?_, ?_, ?_, ?_⟩
  · simp only [Entity.remove, Entity.get]
    exact mapRemove_fst _ _
  · simp only [Entity.remove, Entity.has, Entity.get]
    rw [mapGet_mapRemove_self _ _ h]
    rfl
  · intro hn
    simp only [Entity.get] at hn
    simp only [Entity.remove, mapRemove_of_get_none _ _ hn]
  · simp only [Entity.add, Entity.remove]
    rw [mapRemove_fst]
    exact mapGet_mapInsert_self _ _ _

/-- Claim C7 witness: removal evaluated on a concrete entity. -/
theorem claim_C7_witness :
    (((⟨1, [("Position", Comp.position 4)]⟩ :
        Entity Comp).remove "Position").1
      = (⟨1, [("Position", Comp.position 4)]⟩ : Entity Comp).get "Position")
    ∧ (((⟨1, [("Position", Comp.position 4)]⟩ :
          Entity Comp).remove "Position").2.has "Position" = false)
    ∧ ((⟨1, [("Position", Comp.position 4)]⟩ :
          Entity Comp).get "Position" = none →
        (⟨1, [("Position", Comp.position 4)]⟩ :
          Entity Comp).remove "Position"
          = (none, (⟨1, [("Position", Comp.position 4)]⟩ : Entity Comp)))
    ∧ (((⟨1, [("Position", Comp.position 4)]⟩ :
          Entity Comp).add "Position" (Comp.speed 9)).2.remove "Position").1
        = some (Comp.speed 9) :=
  claim_C7 (⟨1, [("Position", Comp.position 4)]⟩ : Entity Comp) "Position"
    (Comp.speed 9) (by decide)

/-- Claim C8: direct (non-`Option`) indexing of an entity by an absent
kind fails fatally with a message carrying the kind's name, and direct
indexing of a world by an absent identity fails fatally with a message
naming the identity; the error is the operation's outcome — nothing in
the engine catches or retries it. -/
theorem claim_C8 {C : Type} (e : Entity C) (k : Key) (w : World C)
    (id : Nat) (h1 : e.get k = none) (h2 : w.get id = none) :
    e.index k = Except.error ("Unable to find component \"" ++ k ++ "\"")
    ∧ w.index id
        = Except.error ("Unable to find entity with id: " ++ toString id) := by
  constructor
  · simp only [Entity.index, h1]
  · simp only [World.index, h2]

/-- Claim C8 witness: the two fatal errors evaluated on concrete data. -/
theorem claim_C8_witness :
    (Entity.new Comp 0).index "Speed"
        = Except.error ("Unable to find component \"" ++ "Speed" ++ "\"")
    ∧ (World.new Comp).index 42
        = Except.error ("Unable to find entity with id: " ++ toString 42) :=
  claim_C8 (Entity.new Comp 0) "Speed" (World.new Comp) 42 rfl rfl

/-- Claim C9: for all entities and kinds, `e.has(k)` agrees with
`e.get(k).is_some()` — `has` is defined in the source as exactly this. -/
theorem claim_C9 {C : Type} (e : Entity C) (k : Key) :
    e.has k = (e.get k).isSome := rfl

/-- Claim C10: `World::insert` does not mint an identity: an entity's id
exists from `Entity::new` on (the random `Uuid::new_v4` draw `u`), before
any world involvement; `insert` returns that id unchanged, and inserting
an entity whose id is already present replaces the existing entry (the
world does not grow and `get` now returns the new entity). -/
theorem claim_C10 {C : Type} (u : Nat) (w : World C) (e e2 : Entity C)
    (h : e2.id = e.id) :
    (Entity.new C u).id = u
    ∧ (Entity.new C u).components = []
    ∧ (w.insert e).1 = e.id
    ∧ ((w.insert e).2.insert e2).2.entities.length
        = (w.insert e).2.entities.length
    ∧ ((w.insert e).2.insert e2).2.get e.id = some e2 := by
  refine ⟨rfl, rfl, rfl, ?_, ?_⟩
  · simp only [World.insert]
    rw [h]
    apply mapInsert_length_of_mem
    have hs := mapGet_mapInsert_self w.entities e.id e
    have h2 : (mapGet (mapInsert w.entities e.id e).2 e.id).isSome = true := by
      rw [hs]
      rfl
    exact (mapGet_isSome_iff _ _).1 h2
  · simp only [World.insert, World.get]
    rw [h]
    exact mapGet_mapInsert_self _ _ _

/-- Claim C10 witness: insertion of a same-id entity evaluated on
concrete data. -/
theorem claim_C10_witness :
    (Entity.new Comp 7).id = 7
    ∧ (Entity.new Comp 7).components = []
    ∧ ((World.new Comp).insert (Entity.new Comp 3)).1
        = (Entity.new Comp 3).id
    ∧ (((World.new Comp).insert (Entity.new Comp 3)).2.insert
          (⟨3, [("Position", Comp.position 1)]⟩ : Entity Comp)).2.entities.length
        = ((World.new Comp).insert (Entity.new Comp 3)).2.entities.length
    ∧ (((World.new Comp).insert (Entity.new Comp 3)).2.insert
          (⟨3, [("Position", Comp.position 1)]⟩ : Entity Comp)).2.get
            (Entity.new Comp 3).id
        = some (⟨3, [("Position", Comp.position 1)]⟩ : Entity Comp) :=
  claim_C10 7 (World.new Comp) (Entity.new Comp 3)
    (⟨3, [("Position", Comp.position 1)]⟩ : Entity Comp) rfl

end Eks
